import Mathlib

/-!
# Verification of the LabelAnything episodic batching core

This file is a shallow embedding, in Lean 4, of the episodic batch
construction code of the LabelAnything repository:

* `label_anything/data/utils.py` — annotation extraction, padding and the
  collation engine (`add_noise`, `get_bboxes`, `get_coords`, `collate_gt`,
  `collate_bbox`, `rearrange_classes`, `compute_j_index`);
* `label_anything/utils/utils.py` — `substitute_values`;
* `label_anything/data/__init__.py` — `get_divisors`, `get_example_num_list`;
* `label_anything/data/dataset.py` — `VariableBatchSampler`;
* `label_anything/experiment/substitution.py` — the `Substitutor` iterator.

Python floats are modelled as rationals, tensors as (nested) lists or as
index functions with the tensor's fill value as the out-of-range default,
stochastic draws (Gaussian noise, random index sampling, `random.choice`)
as explicit inputs, and exceptions as `Option`/`Except` results.
-/

namespace LabelAnything

/-- A bounding box `[x, y, x1, y1]` as handled by `add_noise`/`get_bboxes`. -/
structure Box4 where
  x : ℚ
  y : ℚ
  x1 : ℚ
  y1 : ℚ
deriving DecidableEq, Repr

/-- The all-zero box, the neutral fill value of bounding-box tensors. -/
def zeroBox : Box4 := ⟨0, 0, 0, 0⟩

/-- Constant `MAX_PIXELS_BBOX_NOISE = 20` from `data/utils.py`. -/
def MAX_PIXELS_BBOX_NOISE : ℚ := 20

/-- Embedding of `np.sign` on rationals. -/
def npSign (v : ℚ) : ℚ := if 0 < v then 1 else if v < 0 then -1 else 0

/-- One clipped noise value, from `add_noise`:
`val if abs(val) <= 20 else np.sign(val) * MAX_PIXELS_BBOX_NOISE`. -/
def clipNoise (v : ℚ) : ℚ := if |v| ≤ 20 then v else npSign v * MAX_PIXELS_BBOX_NOISE

/-- Embedding of `add_noise` (`data/utils.py`).  The four Gaussian draws
`np.random.normal(loc=0, scale=std, size=2)` are modelled by the standardised
samples `z`: a draw with standard deviation `std` is `std * z`.  The function
is total: it never raises on a 4-element numeric box. -/
def add_noise (b : Box4) (z : Box4) : Box4 :=
  let std_w := |b.x - b.x1| / 10
  let std_h := |b.y - b.y1| / 10
  ⟨b.x + clipNoise (std_w * z.x),
   b.y + clipNoise (std_h * z.y),
   b.x1 + clipNoise (std_w * z.x1),
   b.y1 + clipNoise (std_h * z.y1)⟩

lemma abs_clipNoise_le (v : ℚ) : |clipNoise v| ≤ 20 := by
  unfold clipNoise npSign MAX_PIXELS_BBOX_NOISE
  split
  · assumption
  · split
    · norm_num
    · split
      · rw [abs_of_nonpos] <;> norm_num
      · norm_num

/-- The state stored by `VariableBatchSampler.__init__` (`data/dataset.py`).
The underlying `RandomSampler` is abstracted by the dataset length; its index
stream is an explicit input of the iteration function. -/
structure VariableBatchSamplerState where
  dataSourceLen : ℕ
  batch_sizes : List ℕ
  num_examples : List ℕ
  drop_last : Bool
deriving DecidableEq, Repr

/-- Embedding of `VariableBatchSampler.__init__`: stores its arguments and
raises `ValueError` when `len(batch_sizes) == 0`. -/
def VariableBatchSampler.init (dataSourceLen : ℕ) (batch_sizes num_examples : List ℕ)
    (drop_last : Bool) : Except String VariableBatchSamplerState :=
  if batch_sizes.length = 0 then
    .error "At least one batch size should be provided."
  else
    .ok ⟨dataSourceLen, batch_sizes, num_examples, drop_last⟩

/-- Whether `VariableBatchSampler.__init__` raises. -/
def VariableBatchSampler.initRaises (dataSourceLen : ℕ) (batch_sizes num_examples : List ℕ)
    (drop_last : Bool) : Bool :=
  match VariableBatchSampler.init dataSourceLen batch_sizes num_examples drop_last with
  | .error _ => true
  | .ok _ => false

/-- Python truthiness of an iterator object such as `indices =
self.sampler.__iter__()`: an iterator defines neither `__bool__` nor
`__len__`, so `bool(indices)` is always `True`. -/
def iteratorTruthy : Bool := true

/-- The inner `while len(batch) < batch_size and indices:` loop of
`VariableBatchSampler.__iter__`.  `next(indices)` on an exhausted stream
raises, which abandons the partially built batch (`none`); otherwise the
finished batch and the remaining stream are returned. -/
def buildBatch {ι : Type} (batch_size num_examples : ℕ) :
    List (ι × ℕ) → List ι → Option (List (ι × ℕ) × List ι)
  | batch, [] =>
    if batch.length < batch_size && iteratorTruthy then none
    else some (batch, [])
  | batch, i :: rest =>
    if batch.length < batch_size && iteratorTruthy then
      buildBatch batch_size num_examples (batch ++ [(i, num_examples)]) rest
    else some (batch, i :: rest)

/-- Embedding of `VariableBatchSampler.__iter__` run to exhaustion: the
schedule is `zip(self.batch_sizes, self.num_examples)` and the index stream
the (finite) output of the `RandomSampler`.  Returns the yielded batches and
whether iteration ended with the error escaping from `next(indices)`
(a `StopIteration` that PEP 479 surfaces as `RuntimeError`) instead of a
normal end of the schedule. -/
def VariableBatchSampler.iter {ι : Type} :
    List (ℕ × ℕ) → List ι → List (List (ι × ℕ)) × Bool
  | [], _ => ([], false)
  | (bs, ne) :: sched, indices =>
    match buildBatch bs ne [] indices with
    | none => ([], true)
    | some (batch, rest) =>
      let tail := VariableBatchSampler.iter sched rest
      (batch :: tail.1, tail.2)

/-- Iteration from a constructed sampler state, given the random index
stream. -/
def VariableBatchSampler.iterFromState {ι : Type} (s : VariableBatchSamplerState)
    (indices : List ι) : List (List (ι × ℕ)) × Bool :=
  VariableBatchSampler.iter (s.batch_sizes.zip s.num_examples) indices

lemma buildBatch_spec {ι : Type} (bs ne : ℕ) (batch : List (ι × ℕ)) (indices : List ι)
    (hlt : batch.length ≤ bs) :
    buildBatch bs ne batch indices =
      if bs - batch.length ≤ indices.length then
        some (batch ++ (indices.take (bs - batch.length)).map (fun i => (i, ne)),
              indices.drop (bs - batch.length))
      else none := by
  induction indices generalizing batch with
  | nil =>
    unfold buildBatch
    simp only [iteratorTruthy, Bool.and_true, List.length_nil]
    split
    · rename_i h
      simp only [decide_eq_true_eq] at h
      rw [if_neg (by omega)]
    · rename_i h
      simp only [decide_eq_true_eq] at h
      rw [if_pos (by omega)]
      simp [show bs - batch.length = 0 by omega]
  | cons i rest ih =>
    unfold buildBatch
    simp only [iteratorTruthy, Bool.and_true]
    split
    · rename_i h
      simp only [decide_eq_true_eq] at h
      rw [ih (batch ++ [(i, ne)]) (by simp; omega)]
      have hL : (batch ++ [(i, ne)]).length = batch.length + 1 := by simp
      rw [hL]
      obtain ⟨m, hm⟩ : ∃ m, bs - batch.length = m + 1 := ⟨bs - batch.length - 1, by omega⟩
      have hm' : bs - (batch.length + 1) = m := by omega
      rw [hm', List.length_cons, hm]
      by_cases hc : m + 1 ≤ rest.length + 1
      · rw [if_pos (by omega), if_pos hc]
        simp [List.take_succ_cons, List.drop_succ_cons]
      · rw [if_neg (by omega), if_neg hc]
    · rename_i h
      simp only [decide_eq_true_eq] at h
      rw [if_pos (by omega)]
      simp [show bs - batch.length = 0 by omega]

/-- C10 — Sampler iteration shape: every batch yielded by
`VariableBatchSampler.__iter__` has exactly the scheduled `batch_size` pairs
(the `and indices` guard never ends a batch early, since `iteratorTruthy`
is constantly `true`); the yielded output never depends on the `drop_last`
constructor argument; and when the index stream runs out mid-batch, iteration
ends abruptly — strictly fewer batches than the schedule are produced and the
partial batch is not yielded. -/
theorem C10_iter_full_batches_no_drop_last {ι : Type}
    (sched : List (ℕ × ℕ)) (indices : List ι) :
    (∀ k, k < (VariableBatchSampler.iter sched indices).1.length →
      ((VariableBatchSampler.iter sched indices).1.getD k []).length
        = (sched.getD k (0, 0)).1 ∧
      ∀ p ∈ (VariableBatchSampler.iter sched indices).1.getD k [],
        p.2 = (sched.getD k (0, 0)).2) ∧
    (∀ s : VariableBatchSamplerState, ∀ d d' : Bool,
      VariableBatchSampler.iterFromState (ι := ι) { s with drop_last := d } indices
        = VariableBatchSampler.iterFromState { s with drop_last := d' } indices) ∧
    ((VariableBatchSampler.iter sched indices).2 = true →
      (VariableBatchSampler.iter sched indices).1.length < sched.length) := by
  refine ⟨?_, ?_, ?_⟩
  · induction sched generalizing indices with
    | nil => intro k hk; simp [VariableBatchSampler.iter] at hk
    | cons hd tl ih =>
      intro k hk
      obtain ⟨bs, ne⟩ := hd
      have hspec := buildBatch_spec (ι := ι) bs ne ([] : List (ι × ℕ)) indices (by simp)
      simp only [List.length_nil, Nat.sub_zero, List.nil_append] at hspec
      by_cases hc : bs ≤ indices.length
      · rw [if_pos hc] at hspec
        simp only [VariableBatchSampler.iter, hspec] at hk ⊢
        cases k with
        | zero =>
          refine ⟨?_, ?_⟩
          · simp [List.length_take, Nat.min_eq_left hc]
          · intro p hp
            simp only [List.getD_cons_zero, List.mem_map] at hp
            obtain ⟨a, _, rfl⟩ := hp
            rfl
        | succ k =>
          simp only [List.getD_cons_succ]
          simp only [List.length_cons] at hk
          exact ih _ k (by omega)
      · rw [if_neg hc] at hspec
        simp only [VariableBatchSampler.iter, hspec] at hk
        simp at hk
  · intro s d d'
    unfold VariableBatchSampler.iterFromState
    rfl
  · induction sched generalizing indices with
    | nil => simp [VariableBatchSampler.iter]
    | cons hd tl ih =>
      obtain ⟨bs, ne⟩ := hd
      cases hb : buildBatch bs ne ([] : List (ι × ℕ)) indices with
      | none =>
        simp [VariableBatchSampler.iter, hb]
      | some v =>
        obtain ⟨b, r⟩ := v
        simp only [VariableBatchSampler.iter, hb, List.length_cons]
        intro herr
        have := ih r herr
        omega

/-- Embedding of `get_divisors` (`data/__init__.py`): the divisors of `n`
in increasing order, computed as `range(1, n + 1)` filtered by `n % i == 0`. -/
def get_divisors (n : ℕ) : List ℕ :=
  ((List.range n).map (· + 1)).filter (fun i => n % i = 0)

/-- Embedding of `get_example_num_list` (`data/__init__.py`).  The calls to
`random.choice(possible_target_examples_len)` are modelled by the input list
`choices` (one entry per full batch, each drawn from
`get_divisors(max_num_examples)[1:]`).  Returns
`(examples_nums, batch_sizes)`. -/
def get_example_num_list (dataset_len batch_size max_num_examples : ℕ)
    (choices : List ℕ) : List ℕ × List ℕ :=
  let target_examples_num := batch_size * max_num_examples
  let batch_sizes := choices.map (fun num_examples => target_examples_num / num_examples)
  let examples_nums := choices.map (fun x => x - 1)
  if dataset_len % target_examples_num ≠ 0 then
    (examples_nums ++ [dataset_len % target_examples_num], batch_sizes ++ [1])
  else
    (examples_nums, batch_sizes)

lemma mem_get_divisors {n d : ℕ} (h : d ∈ get_divisors n) : d ∣ n ∧ 1 ≤ d := by
  unfold get_divisors at h
  simp only [List.mem_filter, List.mem_map, List.mem_range, decide_eq_true_eq] at h
  obtain ⟨⟨i, _, rfl⟩, hmod⟩ := h
  exact ⟨Nat.dvd_of_mod_eq_zero hmod, by omega⟩

/-- C5 — Shot-budget conservation: with budget
`B = batch_size * max_num_examples`, every schedule entry produced by
`get_example_num_list` except the possibly-appended final partial entry
satisfies `batch_sizes[k] * (examples_nums[k] + 1) = B`, where
`examples_nums[k] + 1` is the per-episode shot count (the scheduled
`num_examples` supports plus the query): the shot count is the chosen divisor
of `max_num_examples` and the batch size is the budget divided by it. -/
theorem C5_shot_budget_conservation
    (dataset_len batch_size max_num_examples : ℕ)
    (choices : List ℕ)
    (hchoice : ∀ c ∈ choices, c ∈ (get_divisors max_num_examples).drop 1) :
    ∀ k, (hk : k < choices.length) →
      ((get_example_num_list dataset_len batch_size max_num_examples choices).2.getD k 0)
          * ((get_example_num_list dataset_len batch_size max_num_examples choices).1.getD k 0 + 1)
        = batch_size * max_num_examples ∧
      ((get_example_num_list dataset_len batch_size max_num_examples choices).1.getD k 0 + 1)
        ∣ max_num_examples := by
  intro k hk
  have hc : choices[k] ∈ choices := List.getElem_mem hk
  obtain ⟨hdvd, h1⟩ := mem_get_divisors (List.mem_of_mem_drop (hchoice _ hc))
  have keymap : ∀ g : ℕ → ℕ, (choices.map g).getD k 0 = g choices[k] := by
    intro g
    rw [List.getD_eq_getElem _ _ (by simpa using hk), List.getElem_map]
  have keyapp : ∀ (g : ℕ → ℕ) (t : List ℕ), (choices.map g ++ t).getD k 0 = g choices[k] := by
    intro g t
    rw [List.getD_eq_getElem _ _ (by simp [List.length_append]; omega),
      List.getElem_append_left (by simpa using hk), List.getElem_map]
  have hres1 :
      (get_example_num_list dataset_len batch_size max_num_examples choices).1.getD k 0
        = choices[k] - 1 := by
    simp only [get_example_num_list]
    split
    · exact keyapp (fun x => x - 1) _
    · exact keymap (fun x => x - 1)
  have hres2 :
      (get_example_num_list dataset_len batch_size max_num_examples choices).2.getD k 0
        = batch_size * max_num_examples / choices[k] := by
    simp only [get_example_num_list]
    split
    · exact keyapp (fun ne => batch_size * max_num_examples / ne) _
    · exact keymap (fun ne => batch_size * max_num_examples / ne)
  rw [hres1, hres2, show choices[k] - 1 + 1 = choices[k] by omega]
  have hdvdB : choices[k] ∣ batch_size * max_num_examples := hdvd.mul_left batch_size
  exact ⟨Nat.div_mul_cancel hdvdB, hdvd⟩

/-- Embedding of `compute_j_index` (`data/utils.py`): the Jaccard index of two
class lists, computed through their underlying sets.  (Python raises
`ZeroDivisionError` when both sets are empty; rational division then yields
`0`, a case no theorem below relies on.) -/
def compute_j_index (class_a class_b : List ℕ) : ℚ :=
  ((class_a.toFinset ∩ class_b.toFinset).card : ℚ)
    / ((class_a.toFinset ∪ class_b.toFinset).card : ℚ)

/-- All unordered pairs of a list, in order. -/
def pairsOf : List α → List (α × α)
  | [] => []
  | x :: xs => xs.map (fun y => (x, y)) ++ pairsOf xs

/-- Modelled from the spec: `mean_pairwise_j_index` is imported by
`experiment/substitution.py` from `label_anything.data.utils` but its
definition is absent from the source tree.  The spec describes it as the mean
pairwise class-set Jaccard similarity, so it is modelled as the mean of
`compute_j_index` over all unordered pairs of an episode's per-example class
lists. -/
def mean_pairwise_j_index (classes : List (List ℕ)) : ℚ :=
  let ps := pairsOf classes
  ((ps.map (fun p => compute_j_index p.1 p.2)).foldr (· + ·) 0) / (ps.length : ℚ)

/-- The batch statistic of `Substitutor.calculate_if_substitute`:
`torch.mean(torch.tensor([mean_pairwise_j_index(elem) for elem in
self.example_classes]))`, one entry per episode. -/
def batch_mean_j (example_classes : List (List (List ℕ))) : ℚ :=
  ((example_classes.map mean_pairwise_j_index).foldr (· + ·) 0)
    / (example_classes.length : ℚ)

/-- Embedding of `Substitutor.calculate_if_substitute`
(`experiment/substitution.py`): `True` when no threshold is configured,
otherwise the comparison `mean > threshold`. -/
def calculate_if_substitute (threshold : Option ℚ)
    (example_classes : List (List (List ℕ))) : Bool :=
  match threshold with
  | none => true
  | some th => decide (batch_mean_j example_classes > th)

/-- The substitute flag as claimed by the spec sentence: continue substituting
when the mean similarity is BELOW the configured threshold. -/
def calculate_if_substitute_claimed (threshold : Option ℚ)
    (example_classes : List (List (List ℕ))) : Bool :=
  match threshold with
  | none => true
  | some th => decide (batch_mean_j example_classes < th)

/-- The `Substitutor` state that drives `__next__`: the step counter
`self.it`, the `substitute` flag, and the per-example ground-truth slots of
`self.ground_truths` (dimension 1 of the collated tensors), modelled as the
map from position to the original slot occupying it. -/
structure SubstitutorState where
  it : ℕ
  substitute : Bool
  gts : ℕ → ℕ

/-- The slot permutation of one reframing step: `index_tensor =
cat([ [it], arange(0, it), arange(it + 1, num_examples) ])`, as a function
from output position to source position. -/
def exchangeIdx (it : ℕ) (j : ℕ) : ℕ :=
  if j = 0 then it else if j ≤ it then j - 1 else j

/-- Embedding of `Substitutor.__next__` for a batch whose per-example
dimension has `M` slots.  At `it == 0` it returns the split
(`divide_query_examples`, whose ground truth is `ground_truths[:, 0]`)
unconditionally; it stops when `substitute` is false or `it == M`; otherwise
it applies `index_tensor` to every per-example tensor (tracked through the
ground-truth slots) and returns the new split.  The yielded value recorded
here is the original slot serving as the query. -/
def Substitutor.next (M : ℕ) (s : SubstitutorState) : Option (ℕ × SubstitutorState) :=
  if s.it = 0 then
    some (s.gts 0, { s with it := 1 })
  else if s.substitute = false then
    none
  else if s.it = M then
    none
  else
    some ((fun j => s.gts (exchangeIdx s.it j)) 0,
      { it := s.it + 1, substitute := s.substitute,
        gts := fun j => s.gts (exchangeIdx s.it j) })

/-- Iterating the `Substitutor` to exhaustion (the caller's `for` loop),
collecting the query slot of every yielded reframed batch.  `fuel` bounds the
number of `__next__` calls. -/
def Substitutor.run (M : ℕ) : ℕ → SubstitutorState → List ℕ
  | 0, _ => []
  | fuel + 1, s =>
    match Substitutor.next M s with
    | none => []
    | some (q, s') => q :: Substitutor.run M fuel s'

/-- The `Substitutor` state built by `__init__` from a collated batch:
`it = 0` and `substitute = calculate_if_substitute()`. -/
def Substitutor.init (threshold : Option ℚ) (example_classes : List (List (List ℕ)))
    (gts : ℕ → ℕ) : SubstitutorState :=
  { it := 0, substitute := calculate_if_substitute threshold example_classes, gts := gts }

/-- The ground-truth slot assignment after `t` completed reframing steps:
position `0` holds original slot `t`, positions `1..t` hold slots
`t-1..0`, and positions beyond `t` are untouched. -/
def gtsAfter (t : ℕ) : ℕ → ℕ := fun j => if j ≤ t then t - j else j

lemma gtsAfter_step (t : ℕ) (j : ℕ) :
    gtsAfter t (exchangeIdx (t + 1) j) = gtsAfter (t + 1) j := by
  unfold gtsAfter exchangeIdx
  split_ifs <;> omega

lemma Substitutor.next_zero (M : ℕ) (b : Bool) (g : ℕ → ℕ) :
    Substitutor.next M { it := 0, substitute := b, gts := g }
      = some (g 0, { it := 1, substitute := b, gts := g }) := by
  unfold Substitutor.next
  simp

lemma Substitutor.next_step (M t : ℕ) (g : ℕ → ℕ) (hM : t + 1 ≠ M) :
    Substitutor.next M { it := t + 1, substitute := true, gts := g }
      = some (g (exchangeIdx (t + 1) 0),
          { it := t + 2, substitute := true,
            gts := fun j => g (exchangeIdx (t + 1) j) }) := by
  unfold Substitutor.next
  dsimp only
  rw [if_neg (show ¬(t + 1 = 0) by omega), if_neg (show ¬(true = false) by simp),
    if_neg hM]

lemma Substitutor.next_stop (M t : ℕ) (g : ℕ → ℕ) (ht : t ≠ 0) (hM : t = M) :
    Substitutor.next M { it := t, substitute := true, gts := g } = none := by
  unfold Substitutor.next
  dsimp only
  rw [if_neg ht, if_neg (show ¬(true = false) by simp), if_pos hM]

lemma Substitutor.run_from (M fuel t : ℕ) (g : ℕ → ℕ)
    (hg : ∀ j, g j = gtsAfter t j) (hMt : t + 1 ≤ M) (hfuel : M ≤ t + 1 + fuel) :
    Substitutor.run M fuel { it := t + 1, substitute := true, gts := g }
      = List.range' (t + 1) (M - (t + 1)) := by
  induction fuel generalizing t g with
  | zero =>
    rw [show M - (t + 1) = 0 by omega]
    rfl
  | succ fuel ih =>
    by_cases hM : t + 1 = M
    · rw [Substitutor.run, Substitutor.next_stop M (t + 1) g (by omega) hM,
        show M - (t + 1) = 0 by omega]
      rfl
    · rw [Substitutor.run, Substitutor.next_step M t g hM]
      show g (exchangeIdx (t + 1) 0) ::
          Substitutor.run M fuel
            { it := t + 2, substitute := true,
              gts := fun j => g (exchangeIdx (t + 1) j) }
        = List.range' (t + 1) (M - (t + 1))
      rw [ih (t + 1) (fun j => g (exchangeIdx (t + 1) j))
        (fun j => (hg (exchangeIdx (t + 1) j)).trans (gtsAfter_step t j))
        (show t + 1 + 1 ≤ M by omega) (show M ≤ t + 1 + 1 + fuel by omega)]
      have hq : g (exchangeIdx (t + 1) 0) = t + 1 := by
        rw [hg, gtsAfter_step]
        unfold gtsAfter
        simp
      rw [hq, show M - (t + 1) = (M - (t + 2)) + 1 by omega, List.range'_succ]

/-- C4 — Substitution coverage: for a collated batch with
`num_support + 1` per-example slots and `substitute = true`, the first
`__next__` yield happens unconditionally (whatever the flag), and iterating
the `Substitutor` to exhaustion yields exactly `num_support + 1` reframed
batches whose query slots are `0, 1, ..., num_support` — every original slot
occupies the query position exactly once. -/
theorem C4_substitution_coverage (num_support : ℕ) (fuel : ℕ)
    (hfuel : num_support + 2 ≤ fuel) :
    (∀ (b : Bool) (g : ℕ → ℕ),
      Substitutor.next (num_support + 1) { it := 0, substitute := b, gts := g }
        = some (g 0, { it := 1, substitute := b, gts := g })) ∧
    Substitutor.run (num_support + 1) fuel
        { it := 0, substitute := true, gts := fun j => j }
      = List.range (num_support + 1) ∧
    (Substitutor.run (num_support + 1) fuel
        { it := 0, substitute := true, gts := fun j => j }).length
      = num_support + 1 ∧
    (∀ j < num_support + 1,
      (Substitutor.run (num_support + 1) fuel
        { it := 0, substitute := true, gts := fun j => j }).count j = 1) := by
  have hrun : Substitutor.run (num_support + 1) fuel
      { it := 0, substitute := true, gts := fun j => j }
      = List.range (num_support + 1) := by
    obtain ⟨fuel', rfl⟩ : ∃ f, fuel = f + 1 := ⟨fuel - 1, by omega⟩
    rw [Substitutor.run, Substitutor.next_zero]
    show (fun j => j) 0 ::
        Substitutor.run (num_support + 1) fuel'
          { it := 1, substitute := true, gts := fun j => j }
      = List.range (num_support + 1)
    rw [show (1 : ℕ) = 0 + 1 by omega]
    rw [Substitutor.run_from (num_support + 1) fuel' 0 (fun j => j)
      (fun j => by show j = gtsAfter 0 j; unfold gtsAfter; split_ifs <;> omega)
      (show 0 + 1 ≤ num_support + 1 by omega)
      (show num_support + 1 ≤ 0 + 1 + fuel' by omega)]
    rw [List.range_eq_range', List.range'_succ]
    simp
  refine ⟨?_, hrun, by rw [hrun]; simp, ?_⟩
  · intro b g
    exact Substitutor.next_zero _ b g
  · intro j hj
    rw [hrun]
    exact List.count_eq_one_of_mem (List.nodup_range _) (List.mem_range.mpr hj)

lemma Substitutor.next_nosub (M t : ℕ) (g : ℕ → ℕ) (ht : t ≠ 0) :
    Substitutor.next M { it := t, substitute := false, gts := g } = none := by
  unfold Substitutor.next
  dsimp only
  rw [if_neg ht, if_pos rfl]

/-- C3 counterexample — `Substitutor.calculate_if_substitute` compares
`mean > threshold`, not `mean < threshold`: for a batch of one episode whose
two example class sets `{1}` and `{2}` are disjoint, the mean pairwise
Jaccard similarity is `0`, below the configured threshold `1/2`, yet the
computed `substitute` flag is `False` while the claim requires `True`. -/
theorem C3_counterexample :
    batch_mean_j [[[1], [2]]] = 0 ∧
    calculate_if_substitute (some (1/2)) [[[1], [2]]] = false ∧
    calculate_if_substitute_claimed (some (1/2)) [[[1], [2]]] = true := by
  have hj : compute_j_index [1] [2] = 0 := by
    unfold compute_j_index
    rw [show (([1] : List ℕ).toFinset ∩ ([2] : List ℕ).toFinset).card = 0 from by decide,
      show (([1] : List ℕ).toFinset ∪ ([2] : List ℕ).toFinset).card = 2 from by decide]
    norm_num
  have hmean : mean_pairwise_j_index [[1], [2]] = 0 := by
    unfold mean_pairwise_j_index
    simp [pairsOf, hj]
  have hbatch : batch_mean_j [[[1], [2]]] = 0 := by
    unfold batch_mean_j
    simp [hmean]
  refine ⟨hbatch, ?_, ?_⟩
  · show decide (batch_mean_j [[[1], [2]]] > 1/2) = false
    rw [hbatch, decide_eq_false_iff_not]
    norm_num
  · show decide (batch_mean_j [[[1], [2]]] < 1/2) = true
    rw [hbatch, decide_eq_true_eq]
    norm_num

/-- C3 (amended) — Substitution trigger: the `substitute` flag is computed
once at construction; it is `True` whenever no threshold is configured, and
when a threshold is configured it is `True` exactly when the mean pairwise
Jaccard similarity of the batch's per-episode class sets is strictly ABOVE
the threshold; when the mean is at most the threshold, iterating the
`Substitutor` terminates after the single unconditional `REFRAME(0)` yield. -/
theorem C3_substitute_trigger (th : ℚ) (ec : List (List (List ℕ)))
    (g : ℕ → ℕ) (M fuel : ℕ) (hfuel : 1 ≤ fuel) :
    calculate_if_substitute none ec = true ∧
    (calculate_if_substitute (some th) ec = true ↔ batch_mean_j ec > th) ∧
    (Substitutor.init (some th) ec g).substitute
      = calculate_if_substitute (some th) ec ∧
    (batch_mean_j ec ≤ th →
      Substitutor.run M fuel (Substitutor.init (some th) ec g) = [g 0]) := by
  refine ⟨rfl, by simp [calculate_if_substitute], rfl, ?_⟩
  intro hle
  have hsub : calculate_if_substitute (some th) ec = false := by
    unfold calculate_if_substitute
    exact decide_eq_false (not_lt.mpr hle)
  unfold Substitutor.init
  rw [hsub]
  obtain ⟨f, rfl⟩ : ∃ f, fuel = f + 1 := ⟨fuel - 1, by omega⟩
  rw [Substitutor.run, Substitutor.next_zero]
  show g 0 :: Substitutor.run M f { it := 1, substitute := false, gts := g } = [g 0]
  cases f with
  | zero => rfl
  | succ f' =>
    rw [Substitutor.run, Substitutor.next_nosub M 1 g (by omega)]

/-- The class attribute `Substitutor.torch_keys_to_exchange` as it is written
in `experiment/substitution.py` — a class-level (hence process-wide, shared)
mutable list. -/
def torch_keys_to_exchange_init : List String :=
  ["prompt_points", "prompt_masks", "prompt_bboxes",
   "flag_masks", "flag_bboxes", "flag_points", "dims"]

/-- The mutation performed at the top of every `Substitutor.__next__` call:
`self.torch_keys_to_exchange.append(image_key)`. -/
def appendImageKey (imageKey : String) (keys : List String) : List String :=
  keys ++ [imageKey]

/-- The shared key list after `n` calls to `__next__` (across every
`Substitutor` instance in the process, since the list is class-level). -/
def keysAfterCalls (imageKey : String) (n : ℕ) : List String :=
  (appendImageKey imageKey)^[n] torch_keys_to_exchange_init

/-- The reframing loop `for key in self.torch_keys_to_exchange:
self.batch[key] = torch.index_select(self.batch[key], 1, index_tensor)`,
tracked on the image/embedding tensor: each occurrence of the image key
reassigns the tensor to its permuted version `f`. -/
def applyExchangeLoop {α : Type} (imageKey : String) (keys : List String)
    (f : α → α) (x : α) : α :=
  keys.foldl (fun acc k => if k = imageKey then f acc else acc) x

lemma count_keysAfterCalls (key : String) (n : ℕ) :
    (keysAfterCalls key n).count key = torch_keys_to_exchange_init.count key + n := by
  induction n with
  | zero => rfl
  | succ n ih =>
    unfold keysAfterCalls at ih ⊢
    rw [Function.iterate_succ_apply']
    rw [show appendImageKey key ((appendImageKey key)^[n] torch_keys_to_exchange_init)
        = ((appendImageKey key)^[n] torch_keys_to_exchange_init) ++ [key] from rfl]
    rw [List.count_append, ih]
    simp [List.count_cons]
    omega

lemma applyExchangeLoop_count {α : Type} (key : String) (f : α → α) :
    ∀ (keys : List String) (x : α),
      applyExchangeLoop key keys f x = f^[keys.count key] x := by
  intro keys
  induction keys with
  | nil => intro x; rfl
  | cons k ks ih =>
    intro x
    unfold applyExchangeLoop at ih ⊢
    simp only [List.foldl_cons]
    by_cases hk : k = key
    · subst hk
      rw [if_pos rfl, ih (f x), List.count_cons_self,
        Function.iterate_succ_apply]
    · rw [if_neg hk, ih x, List.count_cons_of_ne (Ne.symm hk)]

/-- C9 — Shared mutable key list: `Substitutor.torch_keys_to_exchange` starts
with no copy of the image key, every `__next__` call appends one, so after
`n` calls (across all instances) the shared list holds `n` copies of the key,
and the reframing loop applies the slot permutation to the image/embedding
tensor once per copy — `f^[n]`, not exactly once. -/
theorem C9_shared_key_list_accumulates {α : Type} (f : α → α) (x : α) (n : ℕ) :
    torch_keys_to_exchange_init.count "images" = 0 ∧
    torch_keys_to_exchange_init.count "embeddings" = 0 ∧
    (keysAfterCalls "images" n).count "images" = n ∧
    (keysAfterCalls "embeddings" n).count "embeddings" = n ∧
    (∀ keys : List String, applyExchangeLoop "images" keys f x
      = f^[keys.count "images"] x) ∧
    applyExchangeLoop "images" (keysAfterCalls "images" n) f x = f^[n] x := by
  have h1 : torch_keys_to_exchange_init.count "images" = 0 := by decide
  have h2 : torch_keys_to_exchange_init.count "embeddings" = 0 := by decide
  have h3 := count_keysAfterCalls "images" n
  have h4 := count_keysAfterCalls "embeddings" n
  rw [h1] at h3
  rw [h2] at h4
  simp only [Nat.zero_add] at h3 h4
  refine ⟨h1, h2, h3, h4, fun keys => applyExchangeLoop_count "images" f keys x, ?_⟩
  rw [applyExchangeLoop_count "images" f, h3]

/-- One ground-truth pixel remap, from `collate_gt` (`data/utils.py`):
`0 if v == 0 else new_classes[original_classes[v]]`.  `original_classes` maps
the episode-local pixel value to the global class id, `new_classes` maps the
class id to the batch-wide channel; a missing dictionary key (Python
`KeyError`) is `none`. -/
def remapVal (original_classes new_classes : List (ℕ × ℕ)) (v : ℕ) : Option ℕ :=
  if v = 0 then some 0
  else do
    let c ← List.lookup v original_classes
    List.lookup c new_classes

/-- Embedding of `collate_gt` (`data/utils.py`): the double loop
`for i in range(tensor.size(0)): for j in range(tensor.size(0)): ...` — both
loops bounded by dimension 0 — over an `H x W` ground-truth tensor modelled
as a list of rows.  A row shorter than `H` makes the loop index out of range
(`none`); cells with column index `>= H` are left untouched. -/
def collate_gt (tensor : List (List ℕ))
    (original_classes new_classes : List (ℕ × ℕ)) : Option (List (List ℕ)) :=
  let H := tensor.length
  tensor.mapM (fun row =>
    if row.length < H then none
    else row.enum.mapM (fun jv =>
      if jv.1 < H then remapVal original_classes new_classes jv.2 else some jv.2))

/-- The ground-truth remap as the claim states it: EVERY pixel of the `H x W`
tensor is remapped — `0` stays `0`, `v > 0` becomes
`new_classes[original_classes[v]]`. -/
def collate_gt_claimed (tensor : List (List ℕ))
    (original_classes new_classes : List (ℕ × ℕ)) : Option (List (List ℕ)) :=
  tensor.mapM (fun row => row.mapM (remapVal original_classes new_classes))

/-- The lookup table `lt` of `substitute_values` (`utils/utils.py`): a table
filled with `-1`, then `lt[unique] = values` — sequential scatter writes, so
on duplicate keys the last write wins. -/
def ltFun (pairs : List (ℕ × ℤ)) : ℕ → ℤ :=
  pairs.foldl (fun f p => Function.update f p.1 p.2) (fun _ => -1)

/-- Embedding of `substitute_values` (`utils/utils.py`) with an explicit
`unique` argument: builds the table of size `unique.max() + 1` (raising on an
empty `unique`, hence the guard) and returns `lt[x]`; a pixel value beyond
the table size is an index error (`none`). -/
def substitute_values (x : List (List ℕ)) (uniqueVals : List ℕ)
    (values : List ℤ) : Option (List (List ℤ)) :=
  if uniqueVals.isEmpty then none
  else
    let maxU := uniqueVals.foldr max 0
    let lt := ltFun (uniqueVals.zip values)
    x.mapM (fun row => row.mapM (fun v => if v ≤ maxU then some (lt v) else none))

lemma mapM_eq_some_map {α β : Type} (f : α → Option β) (g : α → β) :
    ∀ l : List α, (∀ a ∈ l, f a = some (g a)) → l.mapM f = some (l.map g) := by
  intro l
  induction l with
  | nil => intro _; rfl
  | cons a l ih =>
    intro h
    rw [List.mapM_cons, h a (List.mem_cons_self a l),
      ih (fun b hb => h b (List.mem_cons_of_mem a hb)), List.map_cons]
    rfl

lemma mapM_congr_opt {α β : Type} (f g : α → Option β) :
    ∀ l : List α, (∀ a ∈ l, f a = g a) → l.mapM f = l.mapM g := by
  intro l
  induction l with
  | nil => intro _; rfl
  | cons a l ih =>
    intro h
    rw [List.mapM_cons, List.mapM_cons, h a (List.mem_cons_self a l),
      ih (fun b hb => h b (List.mem_cons_of_mem a hb))]

lemma enumFrom_mapM_remap (o n : List (ℕ × ℕ)) (H : ℕ) :
    ∀ (l : List ℕ) (k : ℕ), k + l.length ≤ H →
      (l.enumFrom k).mapM (fun jv =>
          if jv.1 < H then remapVal o n jv.2 else some jv.2)
        = l.mapM (remapVal o n) := by
  intro l
  induction l with
  | nil => intro k _; rfl
  | cons v l ih =>
    intro k hk
    simp only [List.enumFrom, List.length_cons] at hk ⊢
    rw [List.mapM_cons, List.mapM_cons]
    rw [show (if k < H then remapVal o n v else some v) = remapVal o n v from
      if_pos (by omega)]
    rw [ih (k + 1) (by omega)]

lemma foldl_update_not_mem (v : ℕ) :
    ∀ (ps : List (ℕ × ℤ)) (f : ℕ → ℤ), v ∉ ps.map Prod.fst →
      ps.foldl (fun f p => Function.update f p.1 p.2) f v = f v := by
  intro ps
  induction ps with
  | nil => intro f _; rfl
  | cons p ps ih =>
    intro f hv
    simp only [List.map_cons, List.mem_cons, not_or] at hv
    rw [List.foldl_cons, ih _ hv.2, Function.update_noteq (Ne.symm (Ne.symm hv.1))]

lemma foldl_update_eval (v : ℕ) (z : ℤ) :
    ∀ (ps : List (ℕ × ℤ)) (f : ℕ → ℤ), (ps.map Prod.fst).Nodup →
      (v, z) ∈ ps →
      ps.foldl (fun f p => Function.update f p.1 p.2) f v = z := by
  intro ps
  induction ps with
  | nil => intro f _ h; exact absurd h (List.not_mem_nil _)
  | cons p ps ih =>
    intro f hnd hmem
    rw [List.map_cons, List.nodup_cons] at hnd
    rw [List.foldl_cons]
    rcases List.mem_cons.mp hmem with heq | hmem'
    · subst heq
      rw [foldl_update_not_mem _ _ _ hnd.1]
      simp [Function.update]
    · exact ih _ hnd.2 hmem'

lemma mem_le_foldr_max : ∀ (u : List ℕ) (v : ℕ), v ∈ u → v ≤ u.foldr max 0 := by
  intro u
  induction u with
  | nil => intro v hv; exact absurd hv (List.not_mem_nil v)
  | cons a l ih =>
    intro v hv
    rw [List.foldr_cons]
    rcases List.mem_cons.mp hv with rfl | h
    · exact le_max_left _ _
    · exact le_trans (ih v h) (le_max_right _ _)

/-- C2 counterexample — `collate_gt` loops both pixel indices over
`tensor.size(0)`, so on the non-square `1 x 2` tensor `[[1, 2]]` with class
maps sending pixel value `1` to channel `2` and value `2` to channel `1`,
only the first column is remapped: the result is `[[2, 2]]`, not the claimed
pixel-wise remap `[[2, 1]]`. -/
theorem C2_counterexample :
    collate_gt [[1, 2]] [(1, 10), (2, 20)] [(10, 2), (20, 1)] = some [[2, 2]] ∧
    collate_gt_claimed [[1, 2]] [(1, 10), (2, 20)] [(10, 2), (20, 1)]
      = some [[2, 1]] ∧
    collate_gt [[1, 2]] [(1, 10), (2, 20)] [(10, 2), (20, 1)]
      ≠ collate_gt_claimed [[1, 2]] [(1, 10), (2, 20)] [(10, 2), (20, 1)] := by
  refine ⟨by decide, by decide, by decide⟩

/-- C2 (amended) — Ground-truth remapping: on SQUARE ground-truth tensors
(every row as long as the number of rows) `collate_gt` computes exactly the
claimed pixel-wise remap — input value `0` stays `0` and `v > 0` becomes
`new_classes[original_classes[v]]` — but it does so by a per-pixel loop, and
it is wrong on non-square inputs; the single lookup-table substitution is the
separate `substitute_values` utility, which realizes any pixel-wise map `φ`
(in particular this remap) as one table lookup `lt[x]` whenever `values`
tabulates `φ` on the distinct pixel values `unique`. -/
theorem C2_gt_remap (tensor : List (List ℕ))
    (original_classes new_classes : List (ℕ × ℕ))
    (x : List (List ℕ)) (uniqueVals : List ℕ) (values : List ℤ) (φ : ℕ → ℤ)
    (hsq : ∀ row ∈ tensor, row.length = tensor.length)
    (hne : uniqueVals ≠ [])
    (hnd : uniqueVals.Nodup)
    (hlen : uniqueVals.length = values.length)
    (hval : ∀ k, k < uniqueVals.length → values.getD k 0 = φ (uniqueVals.getD k 0))
    (hmem : ∀ row ∈ x, ∀ v ∈ row, v ∈ uniqueVals) :
    collate_gt tensor original_classes new_classes
      = collate_gt_claimed tensor original_classes new_classes ∧
    substitute_values x uniqueVals values
      = some (x.map (fun row => row.map φ)) := by
  constructor
  · unfold collate_gt collate_gt_claimed
    apply mapM_congr_opt
    intro row hrow
    rw [if_neg (by rw [hsq row hrow]; omega)]
    rw [show row.enum = row.enumFrom 0 from rfl]
    exact enumFrom_mapM_remap _ _ _ row 0 (by rw [hsq row hrow]; omega)
  · unfold substitute_values
    rw [if_neg (by simpa using hne)]
    have hcell : ∀ row ∈ x, ∀ v ∈ row,
        (if v ≤ uniqueVals.foldr max 0
          then some (ltFun (uniqueVals.zip values) v) else none) = some (φ v) := by
      intro row hrow v hv
      have hvu := hmem row hrow v hv
      rw [if_pos (mem_le_foldr_max uniqueVals v hvu)]
      obtain ⟨k, hk, rfl⟩ := List.mem_iff_getElem.mp hvu
      have hkv : k < values.length := by omega
      have hzip : (uniqueVals[k], values[k]) ∈ uniqueVals.zip values := by
        have hkz : k < (uniqueVals.zip values).length := by
          rw [List.length_zip]
          omega
        have hget : (uniqueVals.zip values).get ⟨k, hkz⟩
            = (uniqueVals[k], values[k]) := List.getElem_zip
        exact hget ▸ List.get_mem _ _ hkz
      have hφ : values[k] = φ uniqueVals[k] := by
        have := hval k hk
        rwa [List.getD_eq_getElem _ _ hkv, List.getD_eq_getElem _ _ hk] at this
      have hfst : (uniqueVals.zip values).map Prod.fst = uniqueVals :=
        List.map_fst_zip _ _ (by omega)
      unfold ltFun
      rw [foldl_update_eval _ _ _ _ (by rw [hfst]; exact hnd) hzip, hφ]
    apply mapM_eq_some_map
    intro row hrow
    exact mapM_eq_some_map _ _ row (hcell row hrow)

lemma getD_replicate {α : Type} (a d : α) :
    ∀ n i, (List.replicate n a).getD i d = if i < n then a else d := by
  intro n
  induction n with
  | zero => intro i; simp
  | succ n ih =>
    intro i
    cases i with
    | zero => simp [List.replicate]
    | succ i =>
      rw [List.replicate, List.getD_cons_succ, ih]
      by_cases h : i < n
      · rw [if_pos h, if_pos (by omega)]
      · rw [if_neg h, if_neg (by omega)]

lemma getD_append_or {α : Type} (d : α) :
    ∀ (l1 l2 : List α) i, (l1 ++ l2).getD i d
      = if i < l1.length then l1.getD i d else l2.getD (i - l1.length) d := by
  intro l1
  induction l1 with
  | nil => intro l2 i; simp
  | cons a l1 ih =>
    intro l2 i
    cases i with
    | zero => simp
    | succ i =>
      rw [List.cons_append, List.getD_cons_succ, List.getD_cons_succ, ih]
      by_cases h : i < l1.length
      · rw [if_pos h, if_pos (by simp; omega)]
      · rw [if_neg h, if_neg (by simp; omega), List.length_cons,
          Nat.succ_sub_succ]

/-- The flag construction of `get_bboxes` (`data/utils.py`): all-false when
no real box exists, all-true when they fill the padded length, otherwise
true for the real prefix and false for the padding tail. -/
def get_bboxes_flag (count len_bbox : ℕ) : List Bool :=
  if count = 0 then List.replicate len_bbox false
  else if count = len_bbox then List.replicate len_bbox true
  else List.replicate count true ++ List.replicate (len_bbox - count) false

/-- Embedding of `get_bboxes` (`data/utils.py`): the raw boxes of one
(image, class) pair (the filtered dataframe rows) each get noise added
(`zs` are the standardised Gaussian draws, one `Box4` of samples per box),
then the tensor is right-padded with zero boxes to `len_bbox` rows; the flag
marks the real rows. -/
def get_bboxes (rawBoxes zs : List Box4) (len_bbox : ℕ) : List Box4 × List Bool :=
  let noised := (rawBoxes.zip zs).map (fun p => add_noise p.1 p.2)
  (noised ++ List.replicate (len_bbox - noised.length) zeroBox,
   get_bboxes_flag noised.length len_bbox)

lemma get_bboxes_flag_getD (count len_bbox : ℕ) (hc : count ≤ len_bbox) :
    ∀ i, (get_bboxes_flag count len_bbox).getD i false = decide (i < count) := by
  intro i
  unfold get_bboxes_flag
  by_cases h0 : count = 0
  · subst h0
    rw [if_pos rfl, getD_replicate]
    simp
  · rw [if_neg h0]
    by_cases hfull : count = len_bbox
    · rw [if_pos hfull, getD_replicate]
      by_cases hi : i < len_bbox
      · rw [if_pos hi]
        simp [hfull ▸ hi]
      · rw [if_neg hi]
        have : ¬ i < count := by omega
        simp [this]
    · rw [if_neg hfull, getD_append_or, List.length_replicate, getD_replicate,
        getD_replicate]
      by_cases hi : i < count
      · rw [if_pos hi, if_pos hi]
        simp [hi]
      · rw [if_neg hi]
        split
        · simp [hi]
        · simp [hi]

lemma get_bboxes_flag_length (count len_bbox : ℕ) (hc : count ≤ len_bbox) :
    (get_bboxes_flag count len_bbox).length = len_bbox := by
  unfold get_bboxes_flag
  split
  · simp
  · split
    · simp
    · simp
      omega

/-- A rank-1 or rank-2 float tensor, as returned in the data position by
`get_coords`: the empty-segmentation branch returns the rank-1 tensor
`torch.Tensor([0.0, 0.0])`, every other branch a rank-2 `K x 2` tensor. -/
inductive PyT where
  | vec (xs : List ℚ)
  | mat (xs : List (List ℚ))
deriving DecidableEq, Repr

/-- The torch shape of a (rectangular) `PyT`. -/
def PyT.shape : PyT → List ℕ
  | .vec xs => [xs.length]
  | .mat xs => [xs.length, (xs.headD []).length]

/-- A nonzero mask pixel coordinate as a row of `torch.nonzero`. -/
def coordPair (c : ℚ × ℚ) : List ℚ := [c.1, c.2]

/-- Embedding of `get_coords` (`data/utils.py`).  Inputs: whether
`annotation["segmentation"] == [[]]` (the empty-segmentation branch), the
list of nonzero pixel coordinates of the rendered mask (`torch.nonzero`),
`num_coords`, and the sampled indices drawn by
`np.random.randint(0, coords.size(0), size=num_coords)`.  Returns the data
tensor and the flag tensor (a rank-1 bool tensor, kept as `List Bool`). -/
def get_coords (segEmpty : Bool) (maskCoords : List (ℚ × ℚ))
    (num_coords : ℕ) (randIdx : List ℕ) : PyT × List Bool :=
  if segEmpty then
    (.vec [0, 0], [false])
  else
    let coords := maskCoords.map coordPair
    if coords.length < num_coords then
      (.mat (coords ++ List.replicate (num_coords - coords.length) [0, 0]),
       List.replicate coords.length true
         ++ List.replicate (num_coords - coords.length) false)
    else
      (.mat (randIdx.map (fun i => coords.getD i [0, 0])),
       List.replicate num_coords true)

/-- The claimed flag/data shape relation: the flag tensor's shape is the data
tensor's shape with its innermost geometric dimension removed. -/
def flagShapeMatches (data : PyT) (flag : List Bool) : Prop :=
  data.shape.dropLast = [flag.length]

instance (data : PyT) (flag : List Bool) : Decidable (flagShapeMatches data flag) := by
  unfold flagShapeMatches
  infer_instance

/-- C6 counterexample — on an annotation with empty segmentation
(`annotation["segmentation"] == [[]]`) and `num_coords = 2`, `get_coords`
returns the rank-1 data tensor `[0.0, 0.0]` (shape `(2,)`) with flag
`[False]` (shape `(1,)`): the flag shape is NOT the data shape minus its
innermost dimension, so the claimed invariant fails exactly on the
empty-segmentation edge case it includes. -/
theorem C6_counterexample :
    (get_coords true [] 2 []).1 = .vec [0, 0] ∧
    (get_coords true [] 2 []).2 = [false] ∧
    ¬ flagShapeMatches (get_coords true [] 2 []).1 (get_coords true [] 2 []).2 := by
  refine ⟨by decide, by decide, by decide⟩

/-- C6 (amended) — Flag-shape invariant of annotation extraction: for every
NON-empty segmentation (with `num_coords ≥ 1` points requested and the
random draws in range), `get_coords` returns a `num_coords x 2` data tensor
with a length-`num_coords` flag that is `1` exactly on slots holding a real
point — the first `min(#mask pixels, num_coords)` slots; and `get_bboxes`
always satisfies the invariant: data `N x 4` (the `Box4` rows) with flag of
length `N`, true exactly on the real (non-padding) boxes.  In the
empty-segmentation case the invariant fails (see the counterexample). -/
theorem C6_flag_shape_invariant (maskCoords : List (ℚ × ℚ))
    (num_coords : ℕ) (randIdx : List ℕ)
    (rawBoxes zs : List Box4) (len_bbox : ℕ)
    (hnc : 1 ≤ num_coords)
    (hlen : randIdx.length = num_coords)
    (hidx : ∀ i ∈ randIdx, i < maskCoords.length)
    (hbb : rawBoxes.length ≤ len_bbox) (hzs : zs.length = rawBoxes.length) :
    (get_coords false maskCoords num_coords randIdx).1.shape = [num_coords, 2] ∧
    (get_coords false maskCoords num_coords randIdx).2.length = num_coords ∧
    flagShapeMatches (get_coords false maskCoords num_coords randIdx).1
      (get_coords false maskCoords num_coords randIdx).2 ∧
    (∀ i, (get_coords false maskCoords num_coords randIdx).2.getD i false
      = decide (i < min maskCoords.length num_coords)) ∧
    (get_bboxes rawBoxes zs len_bbox).1.length = len_bbox ∧
    (get_bboxes rawBoxes zs len_bbox).2.length = len_bbox ∧
    (∀ i, (get_bboxes rawBoxes zs len_bbox).2.getD i false
      = decide (i < rawBoxes.length)) := by
  have hclen : (maskCoords.map coordPair).length = maskCoords.length :=
    List.length_map _ _
  have hnlen : ((rawBoxes.zip zs).map (fun p => add_noise p.1 p.2)).length
      = rawBoxes.length := by
    rw [List.length_map, List.length_zip, hzs, Nat.min_self]
  have hbbox1 : (get_bboxes rawBoxes zs len_bbox).1.length = len_bbox := by
    unfold get_bboxes
    simp only [List.length_append, List.length_replicate, hnlen]
    omega
  have hbbox2 : (get_bboxes rawBoxes zs len_bbox).2.length = len_bbox := by
    unfold get_bboxes
    show (get_bboxes_flag _ len_bbox).length = len_bbox
    rw [hnlen]
    exact get_bboxes_flag_length _ _ hbb
  have hbbox3 : ∀ i, (get_bboxes rawBoxes zs len_bbox).2.getD i false
      = decide (i < rawBoxes.length) := by
    intro i
    unfold get_bboxes
    show (get_bboxes_flag _ len_bbox).getD i false = _
    rw [hnlen, get_bboxes_flag_getD _ _ hbb]
  unfold get_coords
  rw [if_neg (by simp)]
  by_cases hlt : (maskCoords.map coordPair).length < num_coords
  · rw [if_pos hlt]
    simp only
    have hdlen : ((maskCoords.map coordPair)
        ++ List.replicate (num_coords - (maskCoords.map coordPair).length)
          [(0 : ℚ), 0]).length = num_coords := by
      simp only [List.length_append, List.length_replicate]
      omega
    have hhead : (((maskCoords.map coordPair)
        ++ List.replicate (num_coords - (maskCoords.map coordPair).length)
          [(0 : ℚ), 0]).headD []).length = 2 := by
      cases maskCoords with
      | nil =>
        simp only [List.map_nil, List.nil_append]
        rw [show num_coords - ([] : List (List ℚ)).length = num_coords by simp]
        obtain ⟨m, rfl⟩ : ∃ m, num_coords = m + 1 := ⟨num_coords - 1, by omega⟩
        rfl
      | cons c cs => rfl
    have hflen : (List.replicate (maskCoords.map coordPair).length true
        ++ List.replicate (num_coords - (maskCoords.map coordPair).length)
          false).length = num_coords := by
      simp only [List.length_append, List.length_replicate]
      omega
    refine ⟨?_, hflen, ?_, ?_, hbbox1, hbbox2, hbbox3⟩
    · show [_, _] = [num_coords, 2]
      rw [hdlen, hhead]
    · show List.dropLast [_, _] = [_]
      simp only [List.dropLast]
      rw [hdlen, hflen]
    · intro i
      rw [getD_append_or, List.length_replicate, getD_replicate, getD_replicate]
      rw [hclen] at hlt ⊢
      rw [show min maskCoords.length num_coords = maskCoords.length by omega]
      by_cases hi : i < maskCoords.length
      · rw [if_pos hi, if_pos hi]
        simp [hi]
      · rw [if_neg hi]
        split
        · simp [hi]
        · simp [hi]
  · rw [if_neg hlt]
    simp only
    have hdlen : (randIdx.map
        (fun i => (maskCoords.map coordPair).getD i [(0 : ℚ), 0])).length
        = num_coords := by
      rw [List.length_map, hlen]
    have hhead : ((randIdx.map
        (fun i => (maskCoords.map coordPair).getD i [(0 : ℚ), 0])).headD
          []).length = 2 := by
      cases randIdx with
      | nil =>
        simp only [List.length_nil] at hlen
        exact absurd hnc (by omega)
      | cons r rest =>
        simp only [List.map_cons, List.headD_cons]
        have hr : r < maskCoords.length := hidx r (List.mem_cons_self r rest)
        rw [List.getD_eq_getElem _ _ (by rw [hclen]; exact hr), List.getElem_map]
        rfl
    refine ⟨?_, by simp, ?_, ?_, hbbox1, hbbox2, hbbox3⟩
    · show [_, _] = [num_coords, 2]
      rw [hdlen, hhead]
    · show List.dropLast [_, _] = [_]
      simp only [List.dropLast]
      rw [hdlen, List.length_replicate]
    · intro i
      rw [getD_replicate]
      rw [hclen] at hlt
      rw [show min maskCoords.length num_coords = num_coords by omega]
      by_cases hi : i < num_coords
      · rw [if_pos hi]
        simp [hi]
      · rw [if_neg hi]
        simp [hi]

/-- Index of the LAST occurrence of `p` in `l`, if any: sequential scatter
writes `out[:, new_positions, ...] = src` make the last write win on a
duplicated position. -/
def lastIdxOf : List ℕ → ℕ → Option ℕ
  | [], _ => none
  | x :: xs, p =>
    match lastIdxOf xs p with
    | some k => some (k + 1)
    | none => if x = p then some 0 else none

/-- The channel positions of `collate_bbox`:
`new_positions = [new_classes[x] - 1 for x in original_classes.values()]`.
A missing key (Python `KeyError`) is modelled by the junk default `0`; the
theorems assume every key is present. -/
def new_positions_of (original_classes new_classes : List (ℕ × ℕ)) : List ℕ :=
  (original_classes.map Prod.snd).map
    (fun x => (List.lookup x new_classes).getD 0 - 1)

/-- Which source channel (if any) feeds output cell `(p, j)` of the scatter
`out[:, new_positions, :n, ...] = src` into a zero-initialized tensor with
annotation dimension `max_annotations`. -/
def scatterSlot (n : ℕ) (pos : List ℕ) (max_annotations : ℕ)
    (p j : ℕ) : Option ℕ :=
  if j < max_annotations then
    match lastIdxOf pos p with
    | some k => if j < n then some k else none
    | none => none
  else none

/-- Embedding of `collate_bbox` (`data/utils.py`).  The `bbox is None` branch
returns all-zero, all-false tensors.  Otherwise zero/false-initialized output
tensors of annotation dimension `max_annotations` receive the episode's
channels at the positions `new_classes[x] - 1`, each truncated/padded to the
episode's own annotation count `n = bbox.shape[2]`.  Tensors are modelled as
total index functions whose value outside the stored region is the fill
value (`zeroBox` / `false`). -/
def collate_bbox (bbox? : Option (List (List (List Box4))))
    (flag? : Option (List (List (List Bool))))
    (original_classes new_classes : List (ℕ × ℕ))
    (max_annotations num_examples : ℕ) :
    (ℕ → ℕ → ℕ → Box4) × (ℕ → ℕ → ℕ → Bool) :=
  match bbox?, flag? with
  | some bbox, some flag =>
    (fun e p j =>
      match scatterSlot ((bbox.headD []).headD []).length
          (new_positions_of original_classes new_classes) max_annotations p j with
      | some k => ((bbox.getD e []).getD k []).getD j zeroBox
      | none => zeroBox,
     fun e p j =>
      match scatterSlot ((bbox.headD []).headD []).length
          (new_positions_of original_classes new_classes) max_annotations p j with
      | some k => ((flag.getD e []).getD k []).getD j false
      | none => false)
  | _, _ => (fun _ _ _ => zeroBox, fun _ _ _ => false)

/-- Embedding of `get_prompt_bbox_per_image` (`data/utils.py`): one episode
image's per-class `get_bboxes` results stacked along the class dimension.
Each entry of `entries` is one class's (raw boxes, Gaussian draws) pair. -/
def get_prompt_bbox_per_image (entries : List (List Box4 × List Box4))
    (max_anns : ℕ) : List (List Box4) × List (List Bool) :=
  (entries.map (fun ent => (get_bboxes ent.1 ent.2 max_anns).1),
   entries.map (fun ent => (get_bboxes ent.1 ent.2 max_anns).2))

/-- Embedding of `get_max_bbox` (`data/utils.py`): the maximum raw-annotation
count over all (image, class) pairs of the episode. -/
def get_max_bbox (images : List (List (List Box4 × List Box4))) : ℕ :=
  (images.map (fun img => (img.map (fun ent => ent.1.length)).foldr max 0)).foldr
    max 0

/-- Embedding of `get_prompt_bbox` (`data/utils.py`): the episode tensor
`M x C x N x 4` and its flag `M x C x N`, every image padded to the
episode-wide `get_max_bbox` annotation count. -/
def get_prompt_bbox (images : List (List (List Box4 × List Box4))) :
    List (List (List Box4)) × List (List (List Bool)) :=
  (images.map (fun img => (get_prompt_bbox_per_image img (get_max_bbox images)).1),
   images.map (fun img => (get_prompt_bbox_per_image img (get_max_bbox images)).2))

lemma get_bboxes_flag_true_of_lt (count len_bbox j : ℕ) (hj : j < count) :
    (get_bboxes_flag count len_bbox).getD j false = true := by
  unfold get_bboxes_flag
  by_cases h0 : count = 0
  · omega
  · rw [if_neg h0]
    by_cases hfull : count = len_bbox
    · rw [if_pos hfull, getD_replicate, if_pos (by omega)]
    · rw [if_neg hfull, getD_append_or, List.length_replicate, if_pos hj,
        getD_replicate, if_pos hj]

/-- Padding neutrality of `get_bboxes`: a flag-0 slot holds the zero box. -/
lemma get_bboxes_neutral (rawBoxes zs : List Box4) (len_bbox j : ℕ)
    (hf : (get_bboxes rawBoxes zs len_bbox).2.getD j false = false) :
    (get_bboxes rawBoxes zs len_bbox).1.getD j zeroBox = zeroBox := by
  unfold get_bboxes at hf ⊢
  have hcount : ((rawBoxes.zip zs).map (fun p => add_noise p.1 p.2)).length ≤ j := by
    by_contra hlt
    push_neg at hlt
    rw [show ((List.map (fun p => add_noise p.1 p.2) (rawBoxes.zip zs)
          ++ List.replicate (len_bbox
            - (List.map (fun p => add_noise p.1 p.2) (rawBoxes.zip zs)).length)
            zeroBox,
        get_bboxes_flag
          (List.map (fun p => add_noise p.1 p.2) (rawBoxes.zip zs)).length
          len_bbox)).2
        = get_bboxes_flag
            (List.map (fun p => add_noise p.1 p.2) (rawBoxes.zip zs)).length
            len_bbox from rfl] at hf
    rw [get_bboxes_flag_true_of_lt _ len_bbox j hlt] at hf
    exact absurd hf (by decide)
  show (List.map (fun p => add_noise p.1 p.2) (rawBoxes.zip zs)
      ++ List.replicate _ zeroBox).getD j zeroBox = zeroBox
  rw [getD_append_or, if_neg (by omega), getD_replicate]
  split <;> rfl

lemma getD_map_cases {α β : Type} (f : α → β) (l : List α) (e : ℕ) (d : β) :
    (l.map f).getD e d = if h : e < l.length then f l[e] else d := by
  by_cases h : e < l.length
  · rw [dif_pos h, List.getD_eq_getElem _ _ (by rw [List.length_map]; exact h),
      List.getElem_map]
  · rw [dif_neg h, List.getD_eq_default _ _ (by rw [List.length_map]; omega)]

/-- Padding neutrality survives the episode stacking of `get_prompt_bbox`. -/
lemma get_prompt_bbox_neutral (images : List (List (List Box4 × List Box4)))
    (e k j : ℕ)
    (hf : (((get_prompt_bbox images).2.getD e []).getD k []).getD j false
      = false) :
    (((get_prompt_bbox images).1.getD e []).getD k []).getD j zeroBox
      = zeroBox := by
  have hf' : (((images.map (fun img =>
      (get_prompt_bbox_per_image img (get_max_bbox images)).2)).getD e
        []).getD k []).getD j false = false := hf
  show (((images.map (fun img =>
      (get_prompt_bbox_per_image img (get_max_bbox images)).1)).getD e
        []).getD k []).getD j zeroBox = zeroBox
  rw [getD_map_cases] at hf' ⊢
  by_cases he : e < images.length
  · rw [dif_pos he] at hf' ⊢
    have hf2 : ((images[e].map (fun ent =>
        (get_bboxes ent.1 ent.2 (get_max_bbox images)).2)).getD k
          []).getD j false = false := hf'
    show ((images[e].map (fun ent =>
        (get_bboxes ent.1 ent.2 (get_max_bbox images)).1)).getD k
          []).getD j zeroBox = zeroBox
    rw [getD_map_cases] at hf2 ⊢
    by_cases hk : k < images[e].length
    · rw [dif_pos hk] at hf2 ⊢
      exact get_bboxes_neutral _ _ _ j hf2
    · rw [dif_neg hk]
      rfl
  · rw [dif_neg he]
    rfl

lemma lastIdxOf_eq_none_of_not_mem (p : ℕ) :
    ∀ l : List ℕ, p ∉ l → lastIdxOf l p = none := by
  intro l
  induction l with
  | nil => intro _; rfl
  | cons x xs ih =>
    intro hp
    rw [List.mem_cons, not_or] at hp
    unfold lastIdxOf
    rw [ih hp.2]
    simp only
    rw [if_neg (fun h => hp.1 h.symm)]

lemma lookup_mem_values (a q : ℕ) :
    ∀ l : List (ℕ × ℕ), List.lookup a l = some q → q ∈ l.map Prod.snd := by
  intro l
  induction l with
  | nil => intro h; exact absurd h (by simp [List.lookup])
  | cons kv rest ih =>
    intro h
    rw [List.lookup] at h
    by_cases hak : a = kv.1
    · rw [show (a == kv.1) = true from beq_iff_eq.mpr hak] at h
      simp only [Option.some.injEq] at h
      subst h
      exact List.mem_cons_self _ _
    · rw [show (a == kv.1) = false from beq_eq_false_iff_ne.mpr hak] at h
      exact List.mem_cons_of_mem _ (ih h)

lemma lookup_inj (a b q : ℕ) :
    ∀ l : List (ℕ × ℕ), (l.map Prod.snd).Nodup →
      List.lookup a l = some q → List.lookup b l = some q → a = b := by
  intro l
  induction l with
  | nil => intro _ ha; exact absurd ha (by simp [List.lookup])
  | cons kv rest ih =>
    intro hnd ha hb
    rw [List.map_cons, List.nodup_cons] at hnd
    rw [List.lookup] at ha hb
    by_cases hak : a = kv.1
    · rw [show (a == kv.1) = true from beq_iff_eq.mpr hak] at ha
      simp only [Option.some.injEq] at ha
      by_cases hbk : b = kv.1
      · rw [hak, hbk]
      · rw [show (b == kv.1) = false from beq_eq_false_iff_ne.mpr hbk] at hb
        exact absurd (ha ▸ lookup_mem_values b q rest hb) hnd.1
    · rw [show (a == kv.1) = false from beq_eq_false_iff_ne.mpr hak] at ha
      by_cases hbk : b = kv.1
      · rw [show (b == kv.1) = true from beq_iff_eq.mpr hbk] at hb
        simp only [Option.some.injEq] at hb
        exact absurd (hb ▸ lookup_mem_values a q rest ha) hnd.1
      · rw [show (b == kv.1) = false from beq_eq_false_iff_ne.mpr hbk] at hb
        exact ih hnd.2 ha hb

/-- C1 — Padding neutrality of the collation engine: (a) in every
`get_bboxes` output a flag-0 slot holds the zero box; (b) for an episode
tensor assembled by `get_prompt_bbox` from `get_bboxes` outputs and passed
through `collate_bbox`, wherever the reconciled flag tensor is 0 the data
slot is the zero box; (c) a class `c` present in the batch-wide class map
`new_classes` but absent from the episode's `original_classes` occupies an
all-zero, all-flag-0 slice at the channel `new_classes[c] - 1` the class map
assigns to it (the map's channels being 1-based with 0 reserved for
background, as built by `rearrange_classes`). -/
theorem C1_padding_neutrality
    (rawBoxes zs : List Box4) (len_bbox j0 : ℕ)
    (images : List (List (List Box4 × List Box4)))
    (original_classes new_classes : List (ℕ × ℕ))
    (max_annotations num_examples : ℕ) (c pos : ℕ)
    (hval1 : ∀ v ∈ new_classes.map Prod.snd, 1 ≤ v)
    (hnd : (new_classes.map Prod.snd).Nodup)
    (hkeys : ∀ x ∈ original_classes.map Prod.snd,
      (List.lookup x new_classes).isSome = true)
    (hc : List.lookup c new_classes = some pos)
    (habs : c ∉ original_classes.map Prod.snd) :
    ((get_bboxes rawBoxes zs len_bbox).2.getD j0 false = false →
      (get_bboxes rawBoxes zs len_bbox).1.getD j0 zeroBox = zeroBox) ∧
    (∀ e p j,
      (collate_bbox (some (get_prompt_bbox images).1)
        (some (get_prompt_bbox images).2) original_classes new_classes
        max_annotations num_examples).2 e p j = false →
      (collate_bbox (some (get_prompt_bbox images).1)
        (some (get_prompt_bbox images).2) original_classes new_classes
        max_annotations num_examples).1 e p j = zeroBox) ∧
    (∀ e j,
      (collate_bbox (some (get_prompt_bbox images).1)
        (some (get_prompt_bbox images).2) original_classes new_classes
        max_annotations num_examples).1 e (pos - 1) j = zeroBox ∧
      (collate_bbox (some (get_prompt_bbox images).1)
        (some (get_prompt_bbox images).2) original_classes new_classes
        max_annotations num_examples).2 e (pos - 1) j = false) := by
  refine ⟨get_bboxes_neutral rawBoxes zs len_bbox j0, ?_, ?_⟩
  · intro e p j hf
    have hf' : (match scatterSlot
        (((get_prompt_bbox images).1.headD []).headD []).length
        (new_positions_of original_classes new_classes) max_annotations p j with
      | some k => (((get_prompt_bbox images).2.getD e []).getD k []).getD j false
      | none => false) = false := hf
    show (match scatterSlot
        (((get_prompt_bbox images).1.headD []).headD []).length
        (new_positions_of original_classes new_classes) max_annotations p j with
      | some k => (((get_prompt_bbox images).1.getD e []).getD k []).getD j zeroBox
      | none => zeroBox) = zeroBox
    cases hss : scatterSlot
        (((get_prompt_bbox images).1.headD []).headD []).length
        (new_positions_of original_classes new_classes) max_annotations p j with
    | none => rfl
    | some k =>
      rw [hss] at hf'
      exact get_prompt_bbox_neutral images e k j hf'
  · have hnone : lastIdxOf (new_positions_of original_classes new_classes)
        (pos - 1) = none := by
      apply lastIdxOf_eq_none_of_not_mem
      intro hmem
      unfold new_positions_of at hmem
      rw [List.mem_map] at hmem
      obtain ⟨x, hx, hxe⟩ := hmem
      obtain ⟨q, hq⟩ := Option.isSome_iff_exists.mp (hkeys x hx)
      rw [hq] at hxe
      simp only [Option.getD_some] at hxe
      have hq1 : 1 ≤ q := hval1 q (lookup_mem_values x q new_classes hq)
      have hpos1 : 1 ≤ pos := hval1 pos (lookup_mem_values c pos new_classes hc)
      have hqp : q = pos := by omega
      subst hqp
      exact habs ((lookup_inj x c q new_classes hnd hq hc) ▸ hx)
    have hscat : ∀ jj, scatterSlot
        (((get_prompt_bbox images).1.headD []).headD []).length
        (new_positions_of original_classes new_classes) max_annotations
        (pos - 1) jj = none := by
      intro jj
      unfold scatterSlot
      rw [hnone]
      split <;> rfl
    intro e j
    constructor
    · show (match scatterSlot
          (((get_prompt_bbox images).1.headD []).headD []).length
          (new_positions_of original_classes new_classes) max_annotations
          (pos - 1) j with
        | some k =>
          (((get_prompt_bbox images).1.getD e []).getD k []).getD j zeroBox
        | none => zeroBox) = zeroBox
      rw [hscat j]
    · show (match scatterSlot
          (((get_prompt_bbox images).1.headD []).headD []).length
          (new_positions_of original_classes new_classes) max_annotations
          (pos - 1) j with
        | some k =>
          (((get_prompt_bbox images).2.getD e []).getD k []).getD j false
        | none => false) = false
      rw [hscat j]

/-- C7 — Bounded box noise: for every 4-element bounding box and every draw of
the four Gaussian samples, each coordinate offset produced by `add_noise` has
absolute value at most 20 pixels; `add_noise` is a total function on 4-element
numeric boxes, so it never raises. -/
theorem C7_add_noise_bounded (b z : Box4) :
    |(add_noise b z).x - b.x| ≤ 20 ∧ |(add_noise b z).y - b.y| ≤ 20 ∧
    |(add_noise b z).x1 - b.x1| ≤ 20 ∧ |(add_noise b z).y1 - b.y1| ≤ 20 := by
  refine ⟨?_, ?_, ?_, ?_⟩ <;>
    simp only [add_noise, add_sub_cancel_left] <;>
    apply abs_clipNoise_le

/-- C8 — Empty-configuration rejection: `VariableBatchSampler.__init__` raises
`ValueError` exactly when the `batch_sizes` list is empty; construction (which
produces no batch: batches are only produced by `__iter__`) succeeds for every
non-empty `batch_sizes` list. -/
theorem C8_empty_batch_sizes_rejected (dataSourceLen : ℕ)
    (batch_sizes num_examples : List ℕ) (drop_last : Bool) :
    VariableBatchSampler.initRaises dataSourceLen batch_sizes num_examples drop_last
      = batch_sizes.isEmpty := by
  unfold VariableBatchSampler.initRaises VariableBatchSampler.init
  cases batch_sizes <;> simp

/-- Concrete instantiation of `C1_padding_neutrality`: a one-example episode
with one class and no raw boxes, class maps `{1: 10}` and `{10: 1, 20: 2}`,
and the absent class `20` occupying all-zero channel `2 - 1 = 1`. -/
theorem C1_padding_neutrality_witness :
    (∀ v ∈ ([(10, 1), (20, 2)] : List (ℕ × ℕ)).map Prod.snd, 1 ≤ v) ∧
    (([(10, 1), (20, 2)] : List (ℕ × ℕ)).map Prod.snd).Nodup ∧
    (∀ x ∈ ([(1, 10)] : List (ℕ × ℕ)).map Prod.snd,
      (List.lookup x ([(10, 1), (20, 2)] : List (ℕ × ℕ))).isSome = true) ∧
    List.lookup 20 ([(10, 1), (20, 2)] : List (ℕ × ℕ)) = some 2 ∧
    (20 ∉ ([(1, 10)] : List (ℕ × ℕ)).map Prod.snd) ∧
    (collate_bbox (some (get_prompt_bbox [[([], [])]]).1)
      (some (get_prompt_bbox [[([], [])]]).2) [(1, 10)] [(10, 1), (20, 2)]
      1 1).1 0 1 0 = zeroBox :=
  ⟨by decide, by decide, by decide, by decide, by decide,
   ((C1_padding_neutrality [] [] 1 0 [[([], [])]] [(1, 10)] [(10, 1), (20, 2)]
      1 1 20 2 (by decide) (by decide) (by decide) (by decide)
      (by decide)).2.2 0 0).1⟩

/-- Concrete instantiation of `C2_gt_remap` on the square tensor
`[[1, 0], [2, 0]]`. -/
theorem C2_gt_remap_witness :
    (∀ row ∈ ([[1, 0], [2, 0]] : List (List ℕ)),
      row.length = ([[1, 0], [2, 0]] : List (List ℕ)).length) ∧
    (([0, 1, 2] : List ℕ) ≠ []) ∧
    (([0, 1, 2] : List ℕ)).Nodup ∧
    (([0, 1, 2] : List ℕ)).length = (([0, 2, 1] : List ℤ)).length ∧
    (∀ k, k < (([0, 1, 2] : List ℕ)).length →
      (([0, 2, 1] : List ℤ)).getD k 0
        = (fun v => if v = 1 then (2 : ℤ) else if v = 2 then 1 else 0)
            ((([0, 1, 2] : List ℕ)).getD k 0)) ∧
    (∀ row ∈ ([[1, 2, 0]] : List (List ℕ)), ∀ v ∈ row, v ∈ ([0, 1, 2] : List ℕ)) ∧
    collate_gt [[1, 0], [2, 0]] [(1, 10), (2, 20)] [(10, 2), (20, 1)]
      = collate_gt_claimed [[1, 0], [2, 0]] [(1, 10), (2, 20)] [(10, 2), (20, 1)] :=
  ⟨by decide, by decide, by decide, by decide, by decide, by decide,
   (C2_gt_remap [[1, 0], [2, 0]] [(1, 10), (2, 20)] [(10, 2), (20, 1)]
     [[1, 2, 0]] [0, 1, 2] [0, 2, 1]
     (fun v => if v = 1 then (2 : ℤ) else if v = 2 then 1 else 0)
     (by decide) (by decide) (by decide) (by decide) (by decide) (by decide)).1⟩

/-- Concrete instantiation of `C3_substitute_trigger`. -/
theorem C3_substitute_trigger_witness :
    1 ≤ 1 ∧ calculate_if_substitute none [[[1], [2]]] = true :=
  ⟨by decide,
   (C3_substitute_trigger (1/2) [[[1], [2]]] (fun j => j) 3 1 (by decide)).1⟩

/-- Concrete instantiation of `C4_substitution_coverage`: two supports, so
three slots; the run yields query slots `[0, 1, 2]`. -/
theorem C4_substitution_coverage_witness :
    2 + 2 ≤ 4 ∧
    Substitutor.run 3 4 { it := 0, substitute := true, gts := fun j => j }
      = List.range 3 :=
  ⟨by decide, (C4_substitution_coverage 2 4 (by decide)).2.1⟩

/-- Concrete instantiation of `C5_shot_budget_conservation`: budget
`2 * 4 = 8`, one full batch with chosen divisor `2` (hence one support plus
the query), giving batch size `4`. -/
theorem C5_shot_budget_conservation_witness :
    (∀ c ∈ ([2] : List ℕ), c ∈ (get_divisors 4).drop 1) ∧
    0 < ([2] : List ℕ).length ∧
    ((get_example_num_list 10 2 4 [2]).2.getD 0 0)
        * ((get_example_num_list 10 2 4 [2]).1.getD 0 0 + 1) = 2 * 4 :=
  ⟨by decide, by decide,
   (C5_shot_budget_conservation 10 2 4 [2] (by decide) 0 (by decide)).1⟩

/-- Concrete instantiation of `C6_flag_shape_invariant`: a one-pixel mask
with two requested points gives a `2 x 2` data tensor. -/
theorem C6_flag_shape_invariant_witness :
    1 ≤ 2 ∧
    ([0, 0] : List ℕ).length = 2 ∧
    (∀ i ∈ ([0, 0] : List ℕ), i < ([((1 : ℚ), (2 : ℚ))]).length) ∧
    (get_coords false [((1 : ℚ), (2 : ℚ))] 2 [0, 0]).1.shape = [2, 2] :=
  ⟨by decide, by decide, by decide,
   (C6_flag_shape_invariant [((1 : ℚ), (2 : ℚ))] 2 [0, 0] [] [] 1
     (by decide) (by decide) (by decide) (by decide) (by decide)).1⟩

/-- Concrete instantiation of `C10_iter_full_batches_no_drop_last`: schedule
`[(2, 3)]` over the three-index stream `[10, 11, 12]`; the yielded batch has
exactly 2 pairs. -/
theorem C10_iter_witness :
    0 < (VariableBatchSampler.iter [(2, 3)] [10, 11, 12]).1.length ∧
    ((VariableBatchSampler.iter [(2, 3)] [10, 11, 12]).1.getD 0 []).length
      = (([(2, 3)] : List (ℕ × ℕ)).getD 0 (0, 0)).1 :=
  ⟨by decide,
   (((C10_iter_full_batches_no_drop_last [(2, 3)] [10, 11, 12]).1) 0
     (by decide)).1⟩

end LabelAnything
